import Mathlib

/-!
Verification of `step2_build_index.py`: a batch image-feature indexer.

The script is embedded shallowly:

* The filesystem is abstracted by `FS`: which folders exist and which file
  names each folder holds.
* The per-run environment is `Env`: whether the weight archive
  `vit-dinov2-base.npz` exists, the size of each file (`none` models
  `os.path.getsize` raising), and the composite
  `resize_short_side`/`Dinov2Numpy.__call__` step (`none` models an
  exception during preprocessing or inference).  A feature is the single
  row the model returns for one image, so the final `np.concatenate(...,
  axis=0)` matrix is the list of collected rows.
* `pool.imap(process_batch, chunks)` yields chunk results in submission
  order, so the run is embedded as the sequential map of `process_batch`
  over the chunks; the completion-order nondeterminism a pool may show is
  modelled separately by quantifying over permutations of the chunk
  results (`collectResults`).
* Console output and `np.save` are abstracted into the `RunResult` sum:
  which terminal branch of `build_index_fast` was taken and, when the
  index is written, exactly the two persisted arrays.
-/

/-- A feature vector: the single row `vit(input_tensor)` yields for one image. -/
abbrev Feature := List Int

/-- Code-point lexicographic order on character lists: the order Python
`sorted` uses on `str` (and the order of Lean `String` ≤, restated here
as a structurally recursive Bool so it can be evaluated). -/
def lexLe : List Char → List Char → Bool
  | [], _ => true
  | _ :: _, [] => false
  | a :: as, b :: bs =>
    if a.toNat < b.toNat then true
    else if b.toNat < a.toNat then false
    else lexLe as bs

/-- `a <= b` on path strings, by code point. -/
def strLe (a b : String) : Bool := lexLe a.data b.data

/-- `fnmatch`-style suffix test backing the `"*.jpg"` / `"*.png"` glob
patterns: the name ends with the extension.  (The hidden-file exception
of `glob` — `*` not matching a leading dot — is immaterial here and not
modelled.) -/
def hasExt (name ext : String) : Bool :=
  decide (name.data.drop (name.data.length - ext.data.length) = ext.data)

/-- The filesystem as seen by the script: `folderExists` is
`os.path.exists` on a folder name, `filesIn` the file basenames a folder
holds (the pool `glob` draws from). -/
structure FS where
  folderExists : String → Bool
  filesIn : String → List String

/-- The per-run environment for the worker body: `weightsExist` is
`os.path.exists("vit-dinov2-base.npz")`, `fileSize` is
`os.path.getsize` (`none` = raises), and `infer` is the composite
`resize_short_side` + `vit(...)` call (`none` = an exception in
preprocessing or inference). -/
structure Env where
  weightsExist : Bool
  fileSize : String → Option Nat
  infer : String → Option Feature

/-- The body of the per-image loop of `process_batch` for one path:
`os.path.getsize(path) < 1024` skips, otherwise preprocessing plus
inference run; any exception (`none`) skips as well.  `some f` means the
image contributes the pair `(f, path)`. -/
def procOne (env : Env) (path : String) : Option Feature :=
  match env.fileSize path with
  | none => none
  | some sz => if sz < 1024 then none else env.infer path

/-- The `for path in image_paths` loop of `process_batch`: successful
images append their feature and path, in input order. -/
def process_paths (env : Env) : List String → List Feature × List String
  | [] => ([], [])
  | p :: rest =>
    let r := process_paths env rest
    match procOne env p with
    | some f => (f :: r.1, p :: r.2)
    | none => r

/-- `process_batch(image_paths)`: returns `([], [])` at once when the
weight archive is missing, otherwise runs the per-image loop. -/
def process_batch (env : Env) (image_paths : List String) : List Feature × List String :=
  if env.weightsExist then process_paths env image_paths else ([], [])

/-- `glob(os.path.join(folder, "*" + ext))`: the files of the folder
whose name ends in `ext`, joined to the folder name.  (`glob` returns
these in an unspecified order; the script sorts the concatenation, so
listing order is irrelevant and the order of `filesIn` is kept.) -/
def globExt (fs : FS) (folder ext : String) : List String :=
  ((fs.filesIn folder).filter (fun n => hasExt n ext)).map (fun n => folder ++ "/" ++ n)

/-- The path order of Python `sorted`, as a Prop. -/
abbrev pathLe (a b : String) : Prop := strLe a b = true

/-- `sorted(glob(folder/*.jpg) + glob(folder/*.png))`.  Python `sorted`
is a stable sort by `pathLe`; it is embedded as insertion sort, which is
stable for the same order. -/
def discoverPaths (fs : FS) (folder : String) : List String :=
  List.insertionSort pathLe ((globExt fs folder ".jpg") ++ (globExt fs folder ".png"))

/-- Fuel-driven helper for `chunksOf`; with `fuel ≥ l.length` and
`bs > 0` it computes the Python slicing
`[l[i:i+bs] for i in range(0, len(l), bs)]`. -/
def chunksAux (bs : Nat) : Nat → List α → List (List α)
  | _, [] => []
  | 0, l => [l]
  | fuel + 1, l => l.take bs :: chunksAux bs fuel (l.drop bs)

/-- `[all_paths[i:i + batch_size] for i in range(0, total_imgs, batch_size)]`. -/
def chunksOf (bs : Nat) (l : List α) : List (List α) :=
  chunksAux bs l.length l

/-- The folder-selection ladder at the top of `build_index_fast`:
`gallery` if it exists, else `demo_data` if it exists, else the early
`return`. -/
def selectFolder (fs : FS) : Option String :=
  if fs.folderExists "gallery" then some "gallery"
  else if fs.folderExists "demo_data" then some "demo_data"
  else none

/-- The observable outcome of one invocation of `build_index_fast`. -/
inductive RunResult where
  /-- Neither `gallery` nor `demo_data` exists: error message, early return. -/
  | noSource : RunResult
  /-- The selected folder holds no matching images: message, early return. -/
  | noImages (folder : String) : RunResult
  /-- `all_features` stayed empty: failure message, nothing written. -/
  | emptyFailure (folder : String) : RunResult
  /-- `np.save` ran: the persisted feature matrix (list of rows) and path array. -/
  | indexWritten (folder : String) (features : List Feature) (paths : List String) : RunResult
deriving DecidableEq

/-- The `for features, paths in pool.imap(...)` accumulation loop:
chunk results arrive in the given order and are appended to
`all_features` / `valid_paths` whenever `len(features) > 0`. -/
def collectResults : List (List Feature × List String) → List Feature × List String
  | [] => ([], [])
  | fp :: rest =>
    let r := collectResults rest
    if fp.1.length > 0 then (fp.1 ++ r.1, fp.2 ++ r.2) else r

/-- The source folder a `RunResult` reports, when one was selected. -/
def RunResult.sourceFolder : RunResult → Option String
  | .noSource => none
  | .noImages folder => some folder
  | .emptyFailure folder => some folder
  | .indexWritten folder _ _ => some folder

/-- `build_index_fast()`: folder selection, discovery, chunking into
batches of 100, the (order-preserving) `pool.imap` collection loop, and
the final concatenate-and-save step. -/
def build_index_fast (fs : FS) (env : Env) : RunResult :=
  match selectFolder fs with
  | none => .noSource
  | some folder =>
    let all_paths := discoverPaths fs folder
    if all_paths.length = 0 then .noImages folder
    else
      let chunks := chunksOf 100 all_paths
      let r := collectResults (chunks.map (process_batch env))
      if r.1.length > 0 then .indexWritten folder r.1 r.2
      else .emptyFailure folder

/-- Success of the per-image pipeline for one path, as a Bool. -/
def imageOk (env : Env) (p : String) : Bool := (procOne env p).isSome

/-- The per-image loop is a simultaneous `filterMap` (features) and
`filter` (paths) over the chunk. -/
lemma process_paths_eq (env : Env) (l : List String) :
    process_paths env l =
      (l.filterMap (procOne env), l.filter (imageOk env)) := by
  induction l with
  | nil => rfl
  | cons p rest ih =>
    cases h : procOne env p with
    | none => simp [process_paths, ih, List.filterMap_cons, List.filter_cons, imageOk, h]
    | some f => simp [process_paths, ih, List.filterMap_cons, List.filter_cons, imageOk, h]

/-- In a `filterMap`/`filter` pair over the same predicate, the i-th
collected feature is exactly the one `g` yields on the i-th kept path. -/
lemma zip_filterMap_filter {α β : Type} (g : α → Option β) (l : List α) :
    ∀ pr ∈ (l.filterMap g).zip (l.filter (fun p => (g p).isSome)), g pr.2 = some pr.1 := by
  induction l with
  | nil => simp
  | cons p rest ih =>
    intro pr hpr
    rw [List.filterMap_cons, List.filter_cons] at hpr
    cases h : g p with
    | none => rw [h] at hpr; simp only [h, Option.isSome_none, Bool.false_eq_true,
        if_false] at hpr; exact ih pr hpr
    | some f =>
      rw [h] at hpr
      simp only [h, Option.isSome_some, if_true, List.zip_cons_cons, List.mem_cons] at hpr
      rcases hpr with rfl | hpr
      · exact h
      · exact ih pr hpr

/-- Features and paths returned by the loop have equal length. -/
lemma process_paths_len (env : Env) (l : List String) :
    (process_paths env l).1.length = (process_paths env l).2.length := by
  induction l with
  | nil => rfl
  | cons p rest ih =>
    simp only [process_paths]
    cases h : procOne env p <;> simp [h, ih]

/-- A chunk with no collected feature also collected no path. -/
lemma process_paths_fst_nil (env : Env) (l : List String)
    (h : (process_paths env l).1 = []) : (process_paths env l).2 = [] := by
  have := process_paths_len env l
  rw [h] at this
  exact List.eq_nil_of_length_eq_zero this.symm

/-- With the weight archive present, collecting the chunk results in
order concatenates to the `filterMap`/`filter` of the flattened chunk
list. -/
lemma collectResults_map (env : Env) (hw : env.weightsExist = true)
    (chunks : List (List String)) :
    collectResults (chunks.map (process_batch env)) =
      (chunks.flatten.filterMap (procOne env), chunks.flatten.filter (imageOk env)) := by
  induction chunks with
  | nil => rfl
  | cons c rest ih =>
    simp only [List.map_cons, collectResults, ih, List.flatten_cons]
    simp only [process_batch, hw, if_true, process_paths_eq]
    by_cases hc : (c.filterMap (procOne env)).length > 0
    · simp [hc]
    · have h1 : c.filterMap (procOne env) = [] :=
        List.eq_nil_of_length_eq_zero (by omega)
      have h2 : c.filter (imageOk env) = [] := by
        have := process_paths_len env c
        rw [process_paths_eq] at this
        simp only [h1, List.length_nil] at this
        exact List.eq_nil_of_length_eq_zero this.symm
      simp [hc, h1, h2]

/-- `chunksAux` flattens back to the original list when the fuel covers
its length and the batch size is positive. -/
lemma chunksAux_flatten {α : Type} (bs : Nat) (hbs : 0 < bs) :
    ∀ (fuel : Nat) (l : List α), l.length ≤ fuel → (chunksAux bs fuel l).flatten = l := by
  intro fuel
  induction fuel with
  | zero =>
    intro l hl
    cases l with
    | nil => rfl
    | cons a t => simp at hl
  | succ n ih =>
    intro l hl
    cases l with
    | nil => rfl
    | cons a t =>
      simp only [chunksAux, List.flatten_cons]
      rw [ih ((a :: t).drop bs) (by simp at hl ⊢; omega)]
      exact List.take_append_drop bs (a :: t)

/-- The chunks of `build_index_fast` concatenate back to the discovered
path list. -/
lemma chunksOf_flatten {α : Type} (bs : Nat) (hbs : 0 < bs) (l : List α) :
    (chunksOf bs l).flatten = l :=
  chunksAux_flatten bs hbs l.length l le_rfl

/-- `lexLe` is total. -/
lemma lexLe_total : ∀ as bs : List Char, lexLe as bs = true ∨ lexLe bs as = true := by
  intro as
  induction as with
  | nil => intro bs; left; rfl
  | cons a tl ih =>
    intro bs
    cases bs with
    | nil => right; rfl
    | cons b bt =>
      rcases Nat.lt_trichotomy a.toNat b.toNat with h | h | h
      · left; simp [lexLe, h]
      · rcases ih bt with h2 | h2
        · left; simp [lexLe, h, h2]
        · right; simp [lexLe, h.symm, h2]
      · right; simp [lexLe, h]

/-- `lexLe` is transitive. -/
lemma lexLe_trans : ∀ as bs cs : List Char,
    lexLe as bs = true → lexLe bs cs = true → lexLe as cs = true := by
  intro as
  induction as with
  | nil => intro bs cs _ _; rfl
  | cons a tl ih =>
    intro bs cs hab hbc
    cases bs with
    | nil => simp [lexLe] at hab
    | cons b bt =>
      cases cs with
      | nil => simp [lexLe] at hbc
      | cons c ct =>
        rcases Nat.lt_trichotomy a.toNat b.toNat with h1 | h1 | h1
        · rcases Nat.lt_trichotomy b.toNat c.toNat with h2 | h2 | h2
          · simp [lexLe, lt_trans h1 h2]
          · simp [lexLe, h2 ▸ h1]
          · simp [lexLe, h2, not_lt_of_lt h2] at hbc
        · rcases Nat.lt_trichotomy b.toNat c.toNat with h2 | h2 | h2
          · simp [lexLe, h1 ▸ h2]
          · have hac : a.toNat = c.toNat := h1.trans h2
            have h3 : lexLe tl bt = true := by
              simpa [lexLe, h1, lt_irrefl] using hab
            have h4 : lexLe bt ct = true := by
              simpa [lexLe, h2, lt_irrefl] using hbc
            simp [lexLe, hac, lt_irrefl, ih bt ct h3 h4]
          · simp [lexLe, h2, not_lt_of_lt h2] at hbc
        · simp [lexLe, h1, not_lt_of_lt h1] at hab

instance : IsTotal String pathLe :=
  ⟨fun a b => lexLe_total a.data b.data⟩

instance : IsTrans String pathLe :=
  ⟨fun a b c => lexLe_trans a.data b.data c.data⟩

/-- The discovered path list is sorted in the Python string order. -/
lemma discoverPaths_sorted (fs : FS) (folder : String) :
    List.Sorted pathLe (discoverPaths fs folder) :=
  List.sorted_insertionSort pathLe _

/-- `chunksAux` slices: chunk `i` is `l[bs*i : bs*i + bs]`. -/
lemma chunksAux_get (bs : Nat) (hbs : 0 < bs) :
    ∀ (fuel : Nat) (l : List α), l.length ≤ fuel →
      ∀ i (hi : i < (chunksAux bs fuel l).length),
        (chunksAux bs fuel l).get ⟨i, hi⟩ = (l.drop (bs * i)).take bs := by
  intro fuel
  induction fuel with
  | zero =>
    intro l hl i hi
    cases l with
    | nil => simp [chunksAux] at hi
    | cons a t => simp at hl
  | succ n ih =>
    intro l hl i hi
    cases l with
    | nil => simp [chunksAux] at hi
    | cons a t =>
      cases i with
      | zero => simp [chunksAux]
      | succ j =>
        simp only [chunksAux, List.length_cons] at hi ⊢
        rw [List.get_cons_succ]
        rw [ih ((a :: t).drop bs) (by simp only [List.length_drop, List.length_cons] at hl ⊢; omega) j (by simpa using hi)]
        rw [List.drop_drop]
        congr 2
        ring

/-- Number of chunks at batch size 100: `⌈len / 100⌉`. -/
lemma chunksAux_length_100 :
    ∀ (fuel : Nat) (l : List α), l.length ≤ fuel →
      (chunksAux 100 fuel l).length = (l.length + 99) / 100 := by
  intro fuel
  induction fuel with
  | zero =>
    intro l hl
    cases l with
    | nil => simp [chunksAux]
    | cons a t => simp at hl
  | succ n ih =>
    intro l hl
    cases l with
    | nil => simp [chunksAux]
    | cons a t =>
      simp only [chunksAux, List.length_cons]
      rw [ih ((a :: t).drop 100) (by simp only [List.length_drop, List.length_cons] at hl ⊢; omega)]
      simp only [List.length_drop, List.length_cons]
      omega

/-- Every chunk has at most `bs` elements. -/
lemma chunksAux_mem_length (bs : Nat) (hbs : 0 < bs) :
    ∀ (fuel : Nat) (l : List α), l.length ≤ fuel →
      ∀ c ∈ chunksAux bs fuel l, c.length ≤ bs := by
  intro fuel
  induction fuel with
  | zero =>
    intro l hl c hc
    cases l with
    | nil => simp [chunksAux] at hc
    | cons a t => simp at hl
  | succ n ih =>
    intro l hl c hc
    cases l with
    | nil => simp [chunksAux] at hc
    | cons a t =>
      simp only [chunksAux, List.mem_cons] at hc
      rcases hc with rfl | hc
      · exact List.length_take_le ..
      · refine ih _ ?_ c hc
        simp only [List.length_drop, List.length_cons] at hl ⊢
        omega

/-- With the weight archive missing, every chunk contributes nothing. -/
lemma collectResults_map_noWeights (env : Env) (hw : env.weightsExist = false)
    (chunks : List (List String)) :
    collectResults (chunks.map (process_batch env)) = ([], []) := by
  induction chunks with
  | nil => rfl
  | cons c rest ih => simp [collectResults, process_batch, hw, ih]

/-- Lengths of the two components of one chunk result agree. -/
lemma process_batch_len (env : Env) (c : List String) :
    (process_batch env c).1.length = (process_batch env c).2.length := by
  unfold process_batch
  by_cases hw : env.weightsExist <;> simp [hw, process_paths_len]

/-- When every chunk result is internally aligned, the zip of the
collected features and paths is the flattened list of per-chunk zips —
so reordering the chunk results only permutes the (feature, path) pairs. -/
lemma collectResults_zip (results : List (List Feature × List String))
    (h : ∀ x ∈ results, x.1.length = x.2.length) :
    (collectResults results).1.zip (collectResults results).2 =
      (results.map (fun x => x.1.zip x.2)).flatten := by
  induction results with
  | nil => rfl
  | cons x rest ih =>
    have hx : x.1.length = x.2.length := h x (List.mem_cons_self x rest)
    have hrest := ih (fun y hy => h y (List.mem_cons_of_mem x hy))
    simp only [collectResults, List.map_cons, List.flatten_cons]
    by_cases hlen : x.1.length > 0
    · simp only [hlen, if_true]
      rw [List.zip_append hx, hrest]
    · have h1 : x.1 = [] := List.eq_nil_of_length_eq_zero (by omega)
      simp [hlen, h1, hrest]

/-- Anatomy of a run that wrote the index: the weights were present, a
source folder was selected, and the persisted arrays are exactly the
`filterMap` / `filter` of the discovered path list. -/
lemma build_indexWritten (fs : FS) (env : Env) (folder : String)
    (F : List Feature) (P : List String)
    (h : build_index_fast fs env = .indexWritten folder F P) :
    env.weightsExist = true ∧ selectFolder fs = some folder ∧
      F = (discoverPaths fs folder).filterMap (procOne env) ∧
      P = (discoverPaths fs folder).filter (imageOk env) := by
  unfold build_index_fast at h
  cases hsel : selectFolder fs with
  | none => rw [hsel] at h; exact absurd h (by simp)
  | some f0 =>
    rw [hsel] at h
    simp only at h
    by_cases hlen : (discoverPaths fs f0).length = 0
    · rw [if_pos hlen] at h; exact absurd h (by simp)
    · rw [if_neg hlen] at h
      by_cases hw : env.weightsExist
      · rw [collectResults_map env hw,
          chunksOf_flatten 100 (by omega) (discoverPaths fs f0)] at h
        by_cases hne :
            ((discoverPaths fs f0).filterMap (procOne env)).length > 0
        · rw [if_pos hne] at h
          injection h with h1 h2 h3
          subst h1; subst h2; subst h3
          exact ⟨hw, rfl, rfl, rfl⟩
        · rw [if_neg hne] at h; exact absurd h (by simp)
      · rw [collectResults_map_noWeights env (by simpa using hw)] at h
        simp at h

/-- Forward anatomy of a run past folder selection and discovery: the
exact terminal branch, by weight presence and result emptiness. -/
lemma build_run (fs : FS) (env : Env) (folder : String)
    (hsel : selectFolder fs = some folder)
    (hne : discoverPaths fs folder ≠ []) :
    (env.weightsExist = false → build_index_fast fs env = .emptyFailure folder) ∧
    (env.weightsExist = true →
      ((discoverPaths fs folder).filterMap (procOne env) = [] →
        build_index_fast fs env = .emptyFailure folder) ∧
      ((discoverPaths fs folder).filterMap (procOne env) ≠ [] →
        build_index_fast fs env =
          .indexWritten folder
            ((discoverPaths fs folder).filterMap (procOne env))
            ((discoverPaths fs folder).filter (imageOk env)))) := by
  have hlen : ¬ (discoverPaths fs folder).length = 0 := by
    simpa [List.length_eq_zero] using hne
  constructor
  · intro hw
    unfold build_index_fast
    rw [hsel]
    simp only
    rw [if_neg hlen, collectResults_map_noWeights env hw]
    simp
  · intro hw
    constructor
    · intro hF
      unfold build_index_fast
      rw [hsel]
      simp only
      rw [if_neg hlen, collectResults_map env hw,
        chunksOf_flatten 100 (by omega) (discoverPaths fs folder)]
      simp [hF]
    · intro hF
      unfold build_index_fast
      rw [hsel]
      simp only
      rw [if_neg hlen, collectResults_map env hw,
        chunksOf_flatten 100 (by omega) (discoverPaths fs folder)]
      rw [if_pos (by simpa [List.length_pos] using hF)]

/-- Specialization of `zip_filterMap_filter` to the per-image pipeline. -/
lemma zip_procOne (env : Env) (l : List String) :
    ∀ pr ∈ (l.filterMap (procOne env)).zip (l.filter (imageOk env)),
      procOne env pr.2 = some pr.1 :=
  zip_filterMap_filter (procOne env) l

/-- Indexed form: the i-th kept feature comes from the i-th kept path. -/
lemma procOne_pair (env : Env) (l : List String) (i : Nat)
    (hF : i < (l.filterMap (procOne env)).length)
    (hP : i < (l.filter (imageOk env)).length) :
    procOne env ((l.filter (imageOk env)).get ⟨i, hP⟩) =
      some ((l.filterMap (procOne env)).get ⟨i, hF⟩) := by
  have hz : i < ((l.filterMap (procOne env)).zip (l.filter (imageOk env))).length := by
    rw [List.length_zip]; omega
  have hmem : ((l.filterMap (procOne env)).zip (l.filter (imageOk env)))[i] ∈
      (l.filterMap (procOne env)).zip (l.filter (imageOk env)) := List.getElem_mem hz
  have h := zip_procOne env l _ hmem
  rw [List.getElem_zip] at h
  simpa [List.get_eq_getElem] using h

/-- As many kept features as kept paths. -/
lemma filterMap_filter_length (env : Env) (l : List String) :
    (l.filterMap (procOne env)).length = (l.filter (imageOk env)).length := by
  have h := process_paths_len env l
  rw [process_paths_eq] at h
  simpa using h

/-- A kept feature was produced by the model call. -/
lemma procOne_some_infer (env : Env) (q : String) (v : Feature)
    (h : procOne env q = some v) : env.infer q = some v := by
  unfold procOne at h
  cases hs : env.fileSize q with
  | none => rw [hs] at h; cases h
  | some sz =>
    rw [hs] at h
    dsimp only at h
    by_cases hlt : sz < 1024
    · rw [if_pos hlt] at h; cases h
    · rwa [if_neg hlt] at h

/-- The run result always reports the folder the selection ladder chose. -/
lemma build_sourceFolder (fs : FS) (env : Env) :
    (build_index_fast fs env).sourceFolder = selectFolder fs := by
  unfold build_index_fast
  cases hsel : selectFolder fs with
  | none => rfl
  | some folder =>
    simp only
    split
    · rfl
    · split
      · rfl
      · rfl

/-- Example filesystem: a `gallery` folder with three jpg files, one png
and one non-image file. -/
def fsA : FS where
  folderExists := fun n => n == "gallery"
  filesIn := fun n =>
    if n == "gallery" then ["b.jpg", "a.jpg", "tiny.jpg", "c.png", "notes.txt"] else []

/-- Example filesystem: only `demo_data` exists. -/
def fsB : FS where
  folderExists := fun n => n == "demo_data"
  filesIn := fun n => if n == "demo_data" then ["d.jpg"] else []

/-- Example filesystem: no source folder at all. -/
def fsC : FS where
  folderExists := fun _ => false
  filesIn := fun _ => []

/-- Example environment: weights present, `tiny.jpg` undersized,
inference fails on the png, succeeds elsewhere with the row `[7, 8]`. -/
def envA : Env where
  weightsExist := true
  fileSize := fun p => if p == "gallery/tiny.jpg" then some 500 else some 4096
  infer := fun p => if p == "gallery/c.png" then none else some [7, 8]

/-- Example environment: same as `envA` but with the weight archive missing. -/
def envB : Env where
  weightsExist := false
  fileSize := fun p => if p == "gallery/tiny.jpg" then some 500 else some 4096
  infer := fun p => if p == "gallery/c.png" then none else some [7, 8]

/-- A 250-element path list for the chunking scenario. -/
def paths250 : List String := List.replicate 250 "x.jpg"

set_option maxRecDepth 100000

/-- C1: `process_batch` always returns two lists of equal length, and a
run that writes an index persists a feature matrix whose row count
equals the path array length, with row `i` produced by the pipeline from
path `i` (alignment invariant). -/
theorem spec_c1_alignment :
    (∀ (env : Env) (chunk : List String),
      (process_batch env chunk).1.length = (process_batch env chunk).2.length) ∧
    (∀ (fs : FS) (env : Env) (folder : String) (F : List Feature) (P : List String),
      build_index_fast fs env = .indexWritten folder F P →
        F.length = P.length ∧
        ∀ i (hF : i < F.length) (hP : i < P.length),
          procOne env (P.get ⟨i, hP⟩) = some (F.get ⟨i, hF⟩)) := by
  constructor
  · exact process_batch_len
  · intro fs env folder F P h
    obtain ⟨hw, hsel, hF, hP⟩ := build_indexWritten fs env folder F P h
    subst hF; subst hP
    exact ⟨filterMap_filter_length env _,
      fun i h1 h2 => procOne_pair env _ i h1 h2⟩

/-- C1 witness: the example run writes a 2-row index aligned with its
2-entry path array, and row 0 comes from path 0. -/
theorem spec_c1_alignment_witness :
    ([[7, 8], [7, 8]] : List Feature).length =
      (["gallery/a.jpg", "gallery/b.jpg"] : List String).length ∧
    procOne envA ((["gallery/a.jpg", "gallery/b.jpg"] : List String).get ⟨0, by decide⟩) =
      some (([[7, 8], [7, 8]] : List Feature).get ⟨0, by decide⟩) := by
  have h := spec_c1_alignment.2 fsA envA "gallery" [[7, 8], [7, 8]]
    ["gallery/a.jpg", "gallery/b.jpg"] (by decide)
  exact ⟨h.1, h.2 0 (by decide) (by decide)⟩

/-- C2: a path whose file size is below 1024 bytes is skipped by
`process_batch` without error and never appears in the output path array
of any run. -/
theorem spec_c2_undersized :
    ∀ (env : Env) (q : String) (sz : Nat),
      env.fileSize q = some sz → sz < 1024 →
      (∀ chunk : List String, q ∉ (process_batch env chunk).2) ∧
      (∀ (fs : FS) (folder : String) (F : List Feature) (P : List String),
        build_index_fast fs env = .indexWritten folder F P → q ∉ P) := by
  intro env q sz hsz hlt
  have hnone : procOne env q = none := by simp [procOne, hsz, hlt]
  have hok : imageOk env q = false := by simp [imageOk, hnone]
  constructor
  · intro chunk hmem
    unfold process_batch at hmem
    by_cases hw : env.weightsExist
    · rw [if_pos hw, process_paths_eq] at hmem
      simp only [List.mem_filter] at hmem
      rw [hok] at hmem
      exact absurd hmem.2 (by simp)
    · rw [if_neg hw] at hmem
      simp at hmem
  · intro fs folder F P h hmem
    obtain ⟨hw, hsel, hF, hP⟩ := build_indexWritten fs env folder F P h
    subst hP
    rw [List.mem_filter] at hmem
    rw [hok] at hmem
    exact absurd hmem.2 (by simp)

/-- C2 witness: the undersized `tiny.jpg` (500 bytes) is skipped in a
chunk containing it, and is absent from the path array of the example run. -/
theorem spec_c2_undersized_witness :
    "gallery/tiny.jpg" ∉ (process_batch envA ["gallery/tiny.jpg"]).2 ∧
    "gallery/tiny.jpg" ∉ (["gallery/a.jpg", "gallery/b.jpg"] : List String) := by
  have h := spec_c2_undersized envA "gallery/tiny.jpg" 500 (by decide) (by decide)
  exact ⟨h.1 ["gallery/tiny.jpg"],
    h.2 fsA "gallery" [[7, 8], [7, 8]] ["gallery/a.jpg", "gallery/b.jpg"] (by decide)⟩

/-- C3: the dispatcher partitions the path list into contiguous slices
`l[100*i : 100*i + 100]` — concatenating the chunks restores the list,
every chunk holds at most 100 paths, every chunk but the last holds
exactly 100, and a 250-path input yields chunk sizes 100, 100, 50. -/
theorem spec_c3_chunk_partition :
    (∀ l : List String,
      (chunksOf 100 l).flatten = l ∧
      (chunksOf 100 l).length = (l.length + 99) / 100 ∧
      (∀ c ∈ chunksOf 100 l, c.length ≤ 100) ∧
      (∀ i (hi : i < (chunksOf 100 l).length),
        (chunksOf 100 l).get ⟨i, hi⟩ = (l.drop (100 * i)).take 100) ∧
      (∀ i, i + 1 < (chunksOf 100 l).length →
        ((l.drop (100 * i)).take 100).length = 100)) ∧
    (∀ l : List String, l.length = 250 →
      (chunksOf 100 l).map List.length = [100, 100, 50]) := by
  have hlen : ∀ (l : List String), (chunksOf 100 l).length = (l.length + 99) / 100 :=
    fun l => chunksAux_length_100 l.length l le_rfl
  have hget : ∀ (l : List String) i (hi : i < (chunksOf 100 l).length),
      (chunksOf 100 l).get ⟨i, hi⟩ = (l.drop (100 * i)).take 100 :=
    fun l i hi => chunksAux_get 100 (by omega) l.length l le_rfl i hi
  constructor
  · intro l
    refine ⟨chunksOf_flatten 100 (by omega) l, hlen l,
      fun c hc => chunksAux_mem_length 100 (by omega) l.length l le_rfl c hc,
      hget l, ?_⟩
    intro i hi
    rw [hlen l] at hi
    simp only [List.length_take, List.length_drop]
    omega
  · intro l hl
    have h3 : (chunksOf 100 l).length = 3 := by rw [hlen l, hl]
    apply List.ext_get
    · simp [h3]
    · intro n h1 h2
      have hn : n < (chunksOf 100 l).length := by
        simpa using h1
      have hchunk := hget l n hn
      simp only [List.get_eq_getElem] at hchunk ⊢
      rw [List.getElem_map, hchunk]
      simp only [List.length_take, List.length_drop, hl]
      have hn3 : n < 3 := by simpa using h2
      interval_cases n <;> simp

/-- C3 witness: 250 concrete paths are dispatched as exactly three
chunks of sizes 100, 100 and 50. -/
theorem spec_c3_chunk_partition_witness :
    (chunksOf 100 paths250).map List.length = [100, 100, 50] :=
  spec_c3_chunk_partition.2 paths250 (by decide)

/-- C4: whenever `gallery` exists it is selected regardless of
`demo_data`; `demo_data` is selected exactly when `gallery` is absent
and `demo_data` is present, and the run reports the selected folder. -/
theorem spec_c4_source_priority :
    ∀ (fs : FS) (env : Env),
      (fs.folderExists "gallery" = true →
        selectFolder fs = some "gallery" ∧
        (build_index_fast fs env).sourceFolder = some "gallery") ∧
      (fs.folderExists "gallery" = false → fs.folderExists "demo_data" = true →
        selectFolder fs = some "demo_data" ∧
        (build_index_fast fs env).sourceFolder = some "demo_data") ∧
      (selectFolder fs = some "demo_data" →
        fs.folderExists "gallery" = false ∧ fs.folderExists "demo_data" = true) := by
  intro fs env
  refine ⟨?_, ?_, ?_⟩
  · intro hg
    have hsel : selectFolder fs = some "gallery" := by simp [selectFolder, hg]
    rw [build_sourceFolder]
    exact ⟨hsel, hsel⟩
  · intro hg hd
    have hsel : selectFolder fs = some "demo_data" := by simp [selectFolder, hg, hd]
    rw [build_sourceFolder]
    exact ⟨hsel, hsel⟩
  · intro hsel
    by_cases hg : fs.folderExists "gallery"
    · rw [selectFolder, if_pos hg] at hsel
      injection hsel with hbad
      exact absurd hbad (by decide)
    · by_cases hd : fs.folderExists "demo_data"
      · exact ⟨by simpa using hg, hd⟩
      · rw [selectFolder, if_neg hg, if_neg hd] at hsel
        cases hsel

/-- C4 witness: with `gallery` present it is selected; on a filesystem
with only `demo_data`, that folder is selected. -/
theorem spec_c4_source_priority_witness :
    (selectFolder fsA = some "gallery" ∧
      (build_index_fast fsA envA).sourceFolder = some "gallery") ∧
    (selectFolder fsB = some "demo_data" ∧
      (build_index_fast fsB envA).sourceFolder = some "demo_data") :=
  ⟨(spec_c4_source_priority fsA envA).1 (by decide),
   (spec_c4_source_priority fsB envA).2.1 (by decide) (by decide)⟩

/-- C5: with the weight archive missing, every chunk yields the empty
result pair without raising, no index is ever written, and a run that
found images ends with the explicit empty-result failure. -/
theorem spec_c5_missing_weights :
    ∀ env : Env, env.weightsExist = false →
      (∀ chunk : List String, process_batch env chunk = ([], [])) ∧
      (∀ (fs : FS) (folder : String) (F : List Feature) (P : List String),
        build_index_fast fs env ≠ .indexWritten folder F P) ∧
      (∀ (fs : FS) (folder : String),
        selectFolder fs = some folder → discoverPaths fs folder ≠ [] →
        build_index_fast fs env = .emptyFailure folder) := by
  intro env hw
  refine ⟨fun chunk => by simp [process_batch, hw], ?_, ?_⟩
  · intro fs folder F P h
    obtain ⟨hw2, _, _, _⟩ := build_indexWritten fs env folder F P h
    rw [hw] at hw2
    cases hw2
  · intro fs folder hsel hne
    exact (build_run fs env folder hsel hne).1 hw

/-- C5 witness: with `envB` (weights absent) a nonempty chunk yields
nothing and the example run ends in the empty-result failure. -/
theorem spec_c5_missing_weights_witness :
    process_batch envB ["gallery/a.jpg"] = ([], []) ∧
    build_index_fast fsA envB = .emptyFailure "gallery" := by
  have h := spec_c5_missing_weights envB (by decide)
  exact ⟨h.1 ["gallery/a.jpg"], h.2.2 fsA "gallery" (by decide) (by decide)⟩

/-- C6: with weights present, per-image failures are absorbed: the
output paths are exactly the filter of the chunk by per-image success,
outputs stay aligned, a failing image contributes nothing and a
succeeding one exactly one pair per occurrence, and `process_batch`
always returns (no per-image error escapes, since any failure is a
`none` absorbed inside `procOne`). -/
theorem spec_c6_error_absorption :
    ∀ (env : Env) (chunk : List String), env.weightsExist = true →
      (process_batch env chunk).2 = chunk.filter (imageOk env) ∧
      (process_batch env chunk).1.length = (process_batch env chunk).2.length ∧
      (∀ q : String, List.count q (process_batch env chunk).2 =
        if imageOk env q then List.count q chunk else 0) ∧
      (∀ q : String, imageOk env q = false → q ∉ (process_batch env chunk).2) := by
  intro env chunk hw
  have h2 : (process_batch env chunk).2 = chunk.filter (imageOk env) := by
    unfold process_batch
    rw [if_pos hw, process_paths_eq]
  refine ⟨h2, process_batch_len env chunk, ?_, ?_⟩
  · intro q
    rw [h2]
    by_cases hq : imageOk env q
    · rw [if_pos hq]
      exact List.count_filter hq
    · rw [if_neg hq]
      rw [List.count_eq_zero]
      intro hmem
      rw [List.mem_filter] at hmem
      exact hq hmem.2
  · intro q hq hmem
    rw [h2, List.mem_filter, hq] at hmem
    exact absurd hmem.2 (by simp)

/-- C6 witness: in a chunk holding one good image and one failing one,
the good path is kept, the failing one contributes nothing. -/
theorem spec_c6_error_absorption_witness :
    (process_batch envA ["gallery/a.jpg", "gallery/c.png"]).2 =
      ["gallery/a.jpg", "gallery/c.png"].filter (imageOk envA) ∧
    List.count "gallery/c.png" (process_batch envA ["gallery/a.jpg", "gallery/c.png"]).2 = 0 := by
  have h := spec_c6_error_absorption envA ["gallery/a.jpg", "gallery/c.png"] (by decide)
  refine ⟨h.1, ?_⟩
  rw [h.2.2.1 "gallery/c.png"]
  have hq : imageOk envA "gallery/c.png" = false := by decide
  simp [hq]

/-- C7: past discovery, the index writer either reports the explicit
empty-result failure (writing nothing, raising nothing) when zero images
succeeded, or persists the concatenated feature rows aligned with an
equally long path array; when every model output has width `D`, every
persisted row has width `D` (an N×D matrix). -/
theorem spec_c7_global_emptiness :
    ∀ (fs : FS) (env : Env) (folder : String),
      selectFolder fs = some folder →
      discoverPaths fs folder ≠ [] →
      ((collectResults ((chunksOf 100 (discoverPaths fs folder)).map
          (process_batch env))).1 = [] →
        build_index_fast fs env = .emptyFailure folder) ∧
      ((collectResults ((chunksOf 100 (discoverPaths fs folder)).map
          (process_batch env))).1 ≠ [] →
        build_index_fast fs env = .indexWritten folder
          (collectResults ((chunksOf 100 (discoverPaths fs folder)).map
            (process_batch env))).1
          (collectResults ((chunksOf 100 (discoverPaths fs folder)).map
            (process_batch env))).2 ∧
        (collectResults ((chunksOf 100 (discoverPaths fs folder)).map
          (process_batch env))).1.length =
        (collectResults ((chunksOf 100 (discoverPaths fs folder)).map
          (process_batch env))).2.length) ∧
      (∀ D : Nat, (∀ (q : String) (v : Feature), env.infer q = some v → v.length = D) →
        ∀ row ∈ (collectResults ((chunksOf 100 (discoverPaths fs folder)).map
          (process_batch env))).1, row.length = D) := by
  intro fs env folder hsel hne
  by_cases hw : env.weightsExist
  · have hcoll : collectResults ((chunksOf 100 (discoverPaths fs folder)).map
        (process_batch env)) =
        ((discoverPaths fs folder).filterMap (procOne env),
         (discoverPaths fs folder).filter (imageOk env)) := by
      rw [collectResults_map env hw,
        chunksOf_flatten 100 (by omega) (discoverPaths fs folder)]
    refine ⟨?_, ?_, ?_⟩
    · intro hF
      rw [hcoll] at hF
      exact ((build_run fs env folder hsel hne).2 hw).1 hF
    · intro hF
      rw [hcoll] at hF ⊢
      exact ⟨((build_run fs env folder hsel hne).2 hw).2 hF,
        filterMap_filter_length env _⟩
    · intro D hD row hrow
      rw [hcoll] at hrow
      rw [List.mem_filterMap] at hrow
      obtain ⟨q, _, hq⟩ := hrow
      exact hD q row (procOne_some_infer env q row hq)
  · have hw2 : env.weightsExist = false := by simpa using hw
    have hcoll := collectResults_map_noWeights env hw2
      (chunksOf 100 (discoverPaths fs folder))
    refine ⟨?_, ?_, ?_⟩
    · intro _
      exact (build_run fs env folder hsel hne).1 hw2
    · intro hF
      rw [hcoll] at hF
      exact absurd rfl hF
    · intro D hD row hrow
      rw [hcoll] at hrow
      cases hrow

/-- C7 witness: the example run succeeds with two images, writes the
collected arrays, and with model width 2 every row has width 2. -/
theorem spec_c7_global_emptiness_witness :
    build_index_fast fsA envA = .indexWritten "gallery"
      (collectResults ((chunksOf 100 (discoverPaths fsA "gallery")).map
        (process_batch envA))).1
      (collectResults ((chunksOf 100 (discoverPaths fsA "gallery")).map
        (process_batch envA))).2 ∧
    (∀ row ∈ (collectResults ((chunksOf 100 (discoverPaths fsA "gallery")).map
      (process_batch envA))).1, row.length = 2) := by
  have h := spec_c7_global_emptiness fsA envA "gallery" (by decide) (by decide)
  refine ⟨(h.2.1 (by decide)).1, h.2.2 2 ?_⟩
  intro q v hq
  by_cases hc : q == "gallery/c.png"
  · simp only [envA, hc, if_pos] at hq
    cases hq
  · simp only [envA] at hq
    rw [if_neg (by simpa using hc)] at hq
    cases hq
    rfl

/-- C8: with neither source folder present, the run returns the
no-source outcome before any chunking or worker dispatch, writing
nothing and raising nothing. -/
theorem spec_c8_missing_source :
    ∀ (fs : FS) (env : Env),
      fs.folderExists "gallery" = false → fs.folderExists "demo_data" = false →
      build_index_fast fs env = .noSource := by
  intro fs env hg hd
  unfold build_index_fast
  rw [show selectFolder fs = none by simp [selectFolder, hg, hd]]

/-- C8 witness: on the folderless filesystem the run aborts cleanly. -/
theorem spec_c8_missing_source_witness :
    build_index_fast fsC envA = .noSource :=
  spec_c8_missing_source fsC envA (by decide) (by decide)

/-- C9: collecting the chunk results in any completion order yields the
same multiset of (feature, path) pairs — so two runs over identical
inputs agree on index content even when row order is only fixed up to
chunk completion order. -/
theorem spec_c9_rerun_content :
    ∀ (fs : FS) (env : Env) (folder : String)
      (other : List (List Feature × List String)),
      ((chunksOf 100 (discoverPaths fs folder)).map (process_batch env)).Perm other →
      ((collectResults ((chunksOf 100 (discoverPaths fs folder)).map
          (process_batch env))).1.zip
        (collectResults ((chunksOf 100 (discoverPaths fs folder)).map
          (process_batch env))).2).Perm
      ((collectResults other).1.zip (collectResults other).2) := by
  intro fs env folder other hperm
  have hal1 : ∀ x ∈ (chunksOf 100 (discoverPaths fs folder)).map (process_batch env),
      x.1.length = x.2.length := by
    intro x hx
    rw [List.mem_map] at hx
    obtain ⟨c, _, rfl⟩ := hx
    exact process_batch_len env c
  have hal2 : ∀ x ∈ other, x.1.length = x.2.length :=
    fun x hx => hal1 x (hperm.mem_iff.mpr hx)
  rw [collectResults_zip _ hal1, collectResults_zip _ hal2]
  exact (hperm.map (fun x => x.1.zip x.2)).flatten

/-- C9 witness: reversing the chunk-result order of the example run
permutes (here: preserves) the pair multiset. -/
theorem spec_c9_rerun_content_witness :
    ((collectResults ((chunksOf 100 (discoverPaths fsA "gallery")).map
        (process_batch envA))).1.zip
      (collectResults ((chunksOf 100 (discoverPaths fsA "gallery")).map
        (process_batch envA))).2).Perm
    ((collectResults (((chunksOf 100 (discoverPaths fsA "gallery")).map
        (process_batch envA)).reverse)).1.zip
      (collectResults (((chunksOf 100 (discoverPaths fsA "gallery")).map
        (process_batch envA)).reverse)).2) :=
  spec_c9_rerun_content fsA envA "gallery" _ (List.reverse_perm _).symm

/-- C10: because `pool.imap` yields chunk results in submission order,
the persisted path array of a successful run is exactly the sorted
discovered path list filtered to the successfully processed images, in
that same sorted order — stronger than the unspecified inter-row
order. -/
theorem spec_c10_submission_order :
    ∀ (fs : FS) (env : Env) (folder : String) (F : List Feature) (P : List String),
      build_index_fast fs env = .indexWritten folder F P →
      P = (discoverPaths fs folder).filter (imageOk env) ∧
      List.Sorted pathLe (discoverPaths fs folder) ∧
      List.Sorted pathLe P := by
  intro fs env folder F P h
  obtain ⟨hw, hsel, hF, hP⟩ := build_indexWritten fs env folder F P h
  subst hP
  exact ⟨rfl, discoverPaths_sorted fs folder,
    (discoverPaths_sorted fs folder).filter (imageOk env)⟩

/-- C10 witness: the path array of the example run is the filtered discovery
list, in sorted order. -/
theorem spec_c10_submission_order_witness :
    (["gallery/a.jpg", "gallery/b.jpg"] : List String) =
      (discoverPaths fsA "gallery").filter (imageOk envA) ∧
    List.Sorted pathLe ["gallery/a.jpg", "gallery/b.jpg"] := by
  have h := spec_c10_submission_order fsA envA "gallery" [[7, 8], [7, 8]]
    ["gallery/a.jpg", "gallery/b.jpg"] (by decide)
  exact ⟨h.1, h.2.2⟩
